import Mathlib

/-!
# Persistent configuration of the brewery RTD firmware

A shallow embedding of `firmware/rtd/Eeprom.h`: the EEPROM is a map from byte
addresses to bytes, the avr-libc access primitives are little-endian byte
operations on that map, and every `Reader`/`Writer` member and the two
top-level routines `verifyState` and `writeDefaults` are functions on it.
`firmware/rtd/Readings.h` is embedded as the function from the readings and the
store to the characters `sprintf` formats.

On the ATmega328p `double` is the 4-byte IEEE-754 binary32 type (the source
asserts `sizeof(double)==4`), so a `double` value is carried as its 32-bit
pattern.
-/

namespace brewery

/-! ## The store and the avr-libc primitives -/

/-- One EEPROM cell. -/
abbrev Byte := Fin 256

/-- The EEPROM contents, addressed by byte. -/
abbrev Store := Nat → Byte

/-- The cell at address `a` is replaced by `b`, all other cells are kept. -/
def setByte (s : Store) (a : Nat) (b : Byte) : Store :=
  fun x => if x = a then b else s x

/-- Byte number `k` (least significant first) of the integer `v`. -/
def byteOf (v k : Nat) : Byte :=
  ⟨v / 256 ^ k % 256, Nat.mod_lt _ (by decide)⟩

/-- avr-libc `eeprom_read_byte`. -/
def eeprom_read_byte (s : Store) (p : Nat) : Nat :=
  (s p).val

/-- avr-libc `eeprom_read_word`: 16 bits, low byte at the lower address. -/
def eeprom_read_word (s : Store) (p : Nat) : Nat :=
  (s p).val + 256 * (s (p + 1)).val

/-- avr-libc `eeprom_read_dword`: 32 bits, least significant byte first. -/
def eeprom_read_dword (s : Store) (p : Nat) : Nat :=
  (s p).val + 256 * (s (p + 1)).val + 65536 * (s (p + 2)).val
    + 16777216 * (s (p + 3)).val

/-- avr-libc `eeprom_read_float`: the four bytes at `p` taken as a binary32
pattern. -/
def eeprom_read_float (s : Store) (p : Nat) : Nat :=
  eeprom_read_dword s p

/-- avr-libc `eeprom_write_byte`; the argument is truncated to `uint8_t`. -/
def eeprom_write_byte (s : Store) (p : Nat) (b : Nat) : Store :=
  setByte s p (byteOf b 0)

/-- avr-libc `eeprom_write_word`; the argument is truncated to `uint16_t`. -/
def eeprom_write_word (s : Store) (p : Nat) (w : Nat) : Store :=
  setByte (setByte s p (byteOf w 0)) (p + 1) (byteOf w 1)

/-- avr-libc `eeprom_write_dword`; the argument is truncated to `uint32_t`. -/
def eeprom_write_dword (s : Store) (p : Nat) (u : Nat) : Store :=
  setByte (setByte (setByte (setByte s p (byteOf u 0)) (p + 1) (byteOf u 1))
    (p + 2) (byteOf u 2)) (p + 3) (byteOf u 3)

/-- avr-libc `eeprom_write_float`: stores the binary32 pattern `f`. -/
def eeprom_write_float (s : Store) (p : Nat) (f : Nat) : Store :=
  eeprom_write_dword s p f

/-! ## Integer to floating point conversion -/

/-- Position of the highest set bit of `n` (0 for `n < 2`), by at most `fuel`
halvings. -/
def highBit : Nat → Nat → Nat
  | 0, _ => 0
  | fuel + 1, n => if n < 2 then 0 else highBit fuel (n / 2) + 1

/-- The binary32 pattern of the non-negative integer `n < 2 ^ 32` converted to
floating point (round to nearest, ties to even). This is the implicit
conversion C++ applies when an integer is passed for a `double` parameter. -/
def floatOfNat (n : Nat) : Nat :=
  if n = 0 then 0
  else
    let e := highBit 32 n
    if e ≤ 23 then (e + 127) * 2 ^ 23 + (n * 2 ^ (23 - e) - 2 ^ 23)
    else
      let q := n / 2 ^ (e - 23)
      let r := n % 2 ^ (e - 23)
      let half := 2 ^ (e - 24)
      let m := if half < r ∨ (r = half ∧ q % 2 = 1) then q + 1 else q
      (e + 127) * 2 ^ 23 + (m - 2 ^ 23)

/-! ## `struct Eeprom` -/

namespace Eeprom

/-- EEPROM locations (`enum class Location : uint8_t`). -/
inductive Location where
  | MAGIC
  | INTENSITY
  | DISPLAYS
  | REDCAL
  | REDCALDATE
  | BLUECAL
  | BLUECALDATE
  deriving DecidableEq, Repr

/-- The enumerator values; `reinterpret_cast` turns them into addresses. -/
def Location.addr : Location → Nat
  | .MAGIC => 0
  | .INTENSITY => 2
  | .DISPLAYS => 3
  | .REDCAL => 4
  | .REDCALDATE => 8
  | .BLUECAL => 12
  | .BLUECALDATE => 16

/-- The magic number that indicates valid EEPROM content. -/
def MAGIC_NUMBER : Nat := 0x55aa

namespace Reader

/-- Read a byte. -/
def readByte (s : Store) (l : Location) : Nat :=
  eeprom_read_byte s l.addr

/-- Read a uint32_t. -/
def readUint32 (s : Store) (l : Location) : Nat :=
  eeprom_read_dword s l.addr

/-- Read a double/float. -/
def readDouble (s : Store) (l : Location) : Nat :=
  eeprom_read_float s l.addr

/-- Read a constant value. -/
def constant (s : Store) (l : Location) : Nat :=
  eeprom_read_word s l.addr

/-- Read the magic number. -/
def magic (s : Store) : Nat :=
  eeprom_read_word s Location.MAGIC.addr

/-- Read the LCD intensity value. -/
def intensity (s : Store) : Nat :=
  eeprom_read_byte s Location.INTENSITY.addr

/-- Read the blue calibration. -/
def blueCal (s : Store) : Nat :=
  readDouble s Location.BLUECAL

/-- Read the blue calibration date. -/
def blueCalDate (s : Store) : Nat :=
  readUint32 s Location.BLUECALDATE

/-- Read the red calibration. -/
def redCal (s : Store) : Nat :=
  readDouble s Location.REDCAL

/-- Read the red calibration date. -/
def redCalDate (s : Store) : Nat :=
  readUint32 s Location.REDCALDATE

/-- Read the displays to use. -/
def displays (s : Store) : Nat :=
  eeprom_read_byte s Location.DISPLAYS.addr

end Reader

namespace Writer

/-- Write a byte to the location. -/
def writeByte (s : Store) (l : Location) (b : Nat) : Store :=
  eeprom_write_byte s l.addr b

/-- Write a double to the location. -/
def writeDouble (s : Store) (l : Location) (d : Nat) : Store :=
  eeprom_write_float s l.addr d

/-- Write a uint32_t to the location. -/
def writeUint32 (s : Store) (l : Location) (u : Nat) : Store :=
  eeprom_write_dword s l.addr u

/-- Write a constant value. -/
def constant (s : Store) (l : Location) (c : Nat) : Store :=
  eeprom_write_word s l.addr c

/-- Write the magic number. -/
def magic (s : Store) : Store :=
  eeprom_write_word s Location.MAGIC.addr MAGIC_NUMBER

/-- Write the intensity. -/
def intensity (s : Store) (i : Nat) : Store :=
  eeprom_write_byte s Location.INTENSITY.addr i

/-- Write the displays to use. -/
def displays (s : Store) (displays : Nat) : Store :=
  eeprom_write_byte s Location.DISPLAYS.addr displays

/-- Write the blue calibration. -/
def blueCal (s : Store) (d : Nat) : Store :=
  writeDouble s Location.BLUECAL d

/-- Write the blue calibration date. -/
def blueCalDate (s : Store) (u : Nat) : Store :=
  writeUint32 s Location.BLUECALDATE u

/-- Write the red calibration. -/
def redCal (s : Store) (d : Nat) : Store :=
  writeDouble s Location.REDCAL d

/-- Write the red calibration date: the `uint32_t` argument is handed to
`writeDouble`, hence converted to floating point first. -/
def redCalDate (s : Store) (u : Nat) : Store :=
  writeDouble s Location.REDCALDATE (floatOfNat (u % 2 ^ 32))

end Writer

/-- Write the default values to EEPROM. The integer literal `0` handed to the
calibration setters is converted to `double`. -/
def writeDefaults (s : Store) : Store :=
  let s := Writer.intensity s 12
  let s := Writer.displays s 0x3
  let s := Writer.blueCal s (floatOfNat 0)
  let s := Writer.redCal s (floatOfNat 0)
  let s := Writer.blueCalDate s 0
  let s := Writer.redCalDate s 0
  Writer.magic s

/-- Verify the content and default it if invalid. -/
def verifyState (s : Store) : Store :=
  if Reader.magic s = MAGIC_NUMBER then s
  else writeDefaults s

/-- The seven setter calls of `writeDefaults`, in program order. -/
def defaultWrites : List (Store → Store) :=
  [ fun s => Writer.intensity s 12,
    fun s => Writer.displays s 0x3,
    fun s => Writer.blueCal s (floatOfNat 0),
    fun s => Writer.redCal s (floatOfNat 0),
    fun s => Writer.blueCalDate s 0,
    fun s => Writer.redCalDate s 0,
    Writer.magic ]

/-- Carry out a sequence of writes from left to right. -/
def runWrites (ws : List (Store → Store)) (s : Store) : Store :=
  ws.foldl (fun t w => w t) s

/-- Every reader returns its default and the signature is the magic number
(the pattern 0 is the floating point value +0.0). -/
def holdsDefaults (s : Store) : Prop :=
  Reader.magic s = MAGIC_NUMBER ∧ Reader.intensity s = 12 ∧ Reader.displays s = 0x3 ∧
    Reader.redCal s = 0 ∧ Reader.blueCal s = 0 ∧
    Reader.redCalDate s = 0 ∧ Reader.blueCalDate s = 0

instance (s : Store) : Decidable (holdsDefaults s) := by
  unfold holdsDefaults
  infer_instance

/-- Number of bytes of each field, as noted beside the enumerators of
`Location`: the size of the avr-libc primitive that the field's reader and
setter use (word for the signature, byte for intensity and displays, dword or
float for the calibrations and their dates). -/
def Location.width : Location → Nat
  | .MAGIC => 2
  | .INTENSITY => 1
  | .DISPLAYS => 1
  | .REDCAL => 4
  | .REDCALDATE => 4
  | .BLUECAL => 4
  | .BLUECALDATE => 4

/-- The named reader of each field. -/
def readField (l : Location) (s : Store) : Nat :=
  match l with
  | .MAGIC => Reader.magic s
  | .INTENSITY => Reader.intensity s
  | .DISPLAYS => Reader.displays s
  | .REDCAL => Reader.redCal s
  | .REDCALDATE => Reader.redCalDate s
  | .BLUECAL => Reader.blueCal s
  | .BLUECALDATE => Reader.blueCalDate s

/-- The named setter of each field; `Writer.magic` takes no value. -/
def writeField (l : Location) (s : Store) (v : Nat) : Store :=
  match l with
  | .MAGIC => Writer.magic s
  | .INTENSITY => Writer.intensity s v
  | .DISPLAYS => Writer.displays s v
  | .REDCAL => Writer.redCal s v
  | .REDCALDATE => Writer.redCalDate s v
  | .BLUECAL => Writer.blueCal s v
  | .BLUECALDATE => Writer.blueCalDate s v

/-- The cells 0..19 after `writeDefaults`: signature, intensity, displays and
sixteen zero bytes. -/
def defaultImage : List Byte :=
  [0xaa, 0x55, 12, 3, 0, 0, 0, 0, 0, 0, 0, 0, 0, 0, 0, 0, 0, 0, 0, 0]

end Eeprom

/-- A factory-fresh (erased) EEPROM: every cell reads 0xFF. -/
def erased : Store := fun _ => 255

/-- A configured EEPROM: valid signature, intensity 200, displays 1, all other
cells 0x42. -/
def configured : Store :=
  fun x => if x = 0 then 0xaa else if x = 1 then 0x55 else if x = 2 then 200
    else if x = 3 then 1 else 0x42

/-! ## Reading a binary32 pattern -/

/-- Sign bit of a binary32 pattern. -/
def float32Sign (b : Nat) : Nat :=
  b / 2 ^ 31 % 2

/-- Biased exponent field of a binary32 pattern. -/
def float32Exponent (b : Nat) : Nat :=
  b / 2 ^ 23 % 256

/-- Fraction field of a binary32 pattern. -/
def float32Mantissa (b : Nat) : Nat :=
  b % 2 ^ 23

/-- The pattern is neither an infinity nor a NaN. -/
def float32Finite (b : Nat) : Prop :=
  float32Exponent b ≠ 255

instance (b : Nat) : Decidable (float32Finite b) := by
  unfold float32Finite
  infer_instance

/-- Magnitude of a finite binary32 pattern in units of 2^-149 (the smallest
subnormal): `M` for a subnormal and `(2^23 + M) * 2^(E-1)` for a normal
number, which is `(1 + M/2^23) * 2^(E-127)` times `2^149`. -/
def float32Scaled (b : Nat) : Nat :=
  if float32Exponent b = 0 then float32Mantissa b
  else (2 ^ 23 + float32Mantissa b) * 2 ^ (float32Exponent b - 1)

/-! ## `sprintf` -/

/-- Decimal digits of `n`, most significant first. -/
def decimal (n : Nat) : List Char :=
  Nat.toDigits 10 n

/-- The six digits after the decimal point, padded with zeros on the left. -/
def fixed6 (n : Nat) : List Char :=
  List.replicate (6 - (decimal n).length) '0' ++ decimal n

/-- Quotient `n / d` rounded to the nearest integer, ties to even. -/
def roundHalfEven (n d : Nat) : Nat :=
  if d < 2 * (n % d) ∨ (2 * (n % d) = d ∧ n / d % 2 = 1) then n / d + 1 else n / d

/-- Standard C `%f` applied to a binary32 pattern: an optional minus sign, the
whole integer part, a point and six fractional digits of the exactly rounded
value; `inf` and `nan` for the other patterns. -/
def printf_f (b : Nat) : List Char :=
  let sign := if float32Sign b = 1 then ['-'] else []
  if float32Exponent b = 255 then
    sign ++ (if float32Mantissa b = 0 then ['i', 'n', 'f'] else ['n', 'a', 'n'])
  else
    let micro := roundHalfEven (float32Scaled b * 10 ^ 6) (2 ^ 149)
    sign ++ decimal (micro / 10 ^ 6) ++ ['.'] ++ fixed6 (micro % 10 ^ 6)

/-- A variadic argument of `sprintf`: a `double` (as its pattern) or an
`unsigned int`. -/
inductive Arg where
  | double (bits : Nat)
  | uint (n : Nat)

/-- The characters `sprintf` produces for a format with `%f` and `%u`
conversions; `unsigned int` has 16 bits on this target. -/
def sprintf : List Char → List Arg → List Char
  | '%' :: 'f' :: rest, Arg.double b :: args => printf_f b ++ sprintf rest args
  | '%' :: 'u' :: rest, Arg.uint n :: args => decimal (n % 65536) ++ sprintf rest args
  | c :: rest, args => c :: sprintf rest args
  | [], _ => []

/-! ## `struct RtdReadings` and `struct Readings` -/

/-- One sensor result (`RtdReadings::Result`): `faultCode` is a `uint8_t`,
`temperature` and `directAdcReading` are `double` patterns. -/
structure RtdReadings.Result where
  faultCode : Nat
  temperature : Nat
  directAdcReading : Nat
  directAdcCode : Int

/-- Encapsulate the RTD readings. -/
structure RtdReadings where
  rtd1 : RtdReadings.Result
  rtd2 : RtdReadings.Result

namespace Readings

/-- The format string of the report. -/
def format : List Char :=
  "\x7b\"red\":\x7b\"value\":\"%f\",\"code\":\"%u\"\x7d,\"blue\":\x7b\"value\":\"%f\",\"code\":\"%u\"\x7d\x7d".toList

/-- Size of the local `buffer`. -/
def bufferSize : Nat := 150

/-- Send back the sensor readings: the characters `sprintf` formats for
`buffer`, which are then handed to `Uart::sendString`, and the store, to which
nothing is written. The addition of two `double` values is the parameter
`fadd`. The result is the full formatted text; whether it fits `bufferSize` is
a separate question. -/
def run (fadd : Nat → Nat → Nat) (rtdReadings : RtdReadings) (s : Store) :
    List Char × Store :=
  let buffer := sprintf format
    [ Arg.double (fadd rtdReadings.rtd2.temperature (Eeprom.Reader.redCal s)),
      Arg.uint (rtdReadings.rtd2.faultCode % 256),
      Arg.double (fadd rtdReadings.rtd1.temperature (Eeprom.Reader.blueCal s)),
      Arg.uint (rtdReadings.rtd1.faultCode % 256) ]
  (buffer, s)

end Readings

/-! # Verification -/

open Eeprom

/-! ## Elementary facts about the store -/

theorem setByte_same (s : Store) (a : Nat) (b : Byte) : setByte s a b a = b := by
  simp [setByte]

theorem setByte_other (s : Store) (a x : Nat) (b : Byte) (h : x ≠ a) :
    setByte s a b x = s x := by
  simp [setByte, h]

theorem floatOfNat_zero : floatOfNat 0 = 0 := by
  simp [floatOfNat]

theorem floatOfNat_one : floatOfNat 1 = 0x3F800000 := by
  decide

/-- Reading back a byte that was just written. -/
theorem read_write_byte (s : Store) (p b : Nat) :
    eeprom_read_byte (eeprom_write_byte s p b) p = b % 256 := by
  simp [eeprom_read_byte, eeprom_write_byte, setByte, byteOf]

/-- Reading back a 16-bit word that was just written. -/
theorem read_write_word (s : Store) (p w : Nat) :
    eeprom_read_word (eeprom_write_word s p w) p = w % 65536 := by
  simp [eeprom_read_word, eeprom_write_word, setByte, byteOf]
  omega

/-- Reading back a 32-bit word that was just written. -/
theorem read_write_dword (s : Store) (p u : Nat) :
    eeprom_read_dword (eeprom_write_dword s p u) p = u % 4294967296 := by
  simp [eeprom_read_dword, eeprom_write_dword, setByte, byteOf]
  omega

/-- The image of `writeDefaults`, cell by cell. -/
theorem writeDefaults_apply (s : Store) (x : Nat) :
    writeDefaults s x =
      if x = 0 then 0xaa else if x = 1 then 0x55 else if x = 2 then 12
      else if x = 3 then 3 else if x < 20 then 0 else s x := by
  simp only [writeDefaults, Writer.magic, Writer.redCalDate, Writer.blueCalDate,
    Writer.redCal, Writer.blueCal, Writer.displays, Writer.intensity, Writer.writeDouble,
    Writer.writeUint32, eeprom_write_float, eeprom_write_dword, eeprom_write_word,
    eeprom_write_byte, setByte, Location.addr, floatOfNat_zero, MAGIC_NUMBER, byteOf]
  by_cases hx : x < 20
  · interval_cases x <;> rfl
  · have h0 : x ≠ 0 := by omega
    have h1 : x ≠ 1 := by omega
    have h2 : x ≠ 2 := by omega
    have h3 : x ≠ 3 := by omega
    simp only [h0, h1, h2, h3, hx, if_false]
    repeat rw [if_neg (by omega)]

/-- Two stores that agree from cell 20 upwards have the same defaulted image. -/
theorem writeDefaults_congr (s t : Store) (h : ∀ x, 20 ≤ x → t x = s x) :
    writeDefaults t = writeDefaults s := by
  funext x
  rw [writeDefaults_apply, writeDefaults_apply]
  by_cases hx : x < 20
  · simp [hx]
  · rw [h x (by omega)]

/-- After `writeDefaults` every reader returns its default. -/
theorem writeDefaults_holdsDefaults (s : Store) : holdsDefaults (writeDefaults s) := by
  simp [holdsDefaults, Reader.magic, Reader.intensity, Reader.displays, Reader.redCal,
    Reader.blueCal, Reader.redCalDate, Reader.blueCalDate, Reader.readDouble,
    Reader.readUint32, eeprom_read_word, eeprom_read_byte, eeprom_read_float,
    eeprom_read_dword, Location.addr, writeDefaults_apply, MAGIC_NUMBER]
  decide

theorem verifyState_of_valid (s : Store) (h : Reader.magic s = MAGIC_NUMBER) :
    verifyState s = s := by
  simp [verifyState, h]

theorem verifyState_of_invalid (s : Store) (h : Reader.magic s ≠ MAGIC_NUMBER) :
    verifyState s = writeDefaults s := by
  simp [verifyState, h]

theorem magic_verifyState (s : Store) : Reader.magic (verifyState s) = MAGIC_NUMBER := by
  by_cases h : Reader.magic s = MAGIC_NUMBER
  · rw [verifyState_of_valid s h]; exact h
  · rw [verifyState_of_invalid s h]; exact (writeDefaults_holdsDefaults s).1

/-- Interrupting `writeDefaults` before its last call changes no cell outside
2..19. -/
theorem runWrites_take_frame (s : Store) (k : Nat) (hk : k < 7) (x : Nat)
    (hx : x < 2 ∨ 20 ≤ x) : runWrites (defaultWrites.take k) s x = s x := by
  interval_cases k <;>
    simp only [runWrites, defaultWrites, List.take, List.foldl, Writer.redCalDate,
      Writer.blueCalDate, Writer.redCal, Writer.blueCal, Writer.displays, Writer.intensity,
      Writer.writeDouble, Writer.writeUint32, eeprom_write_float, eeprom_write_dword,
      eeprom_write_byte, setByte, Location.addr] <;>
    repeat rw [if_neg (by omega)]

/-! ## The integrity guard -/

/-- C1: on a store whose signature is not the magic number, after `verifyState`
the readers return magic 0x55AA, intensity 12, displays 0x3, both calibrations
+0.0 (pattern 0) and both calibration dates 0. -/
theorem verifyState_invalid_reads_defaults (s : Store)
    (h : Reader.magic s ≠ MAGIC_NUMBER) :
    Reader.magic (verifyState s) = 0x55AA ∧ Reader.intensity (verifyState s) = 12 ∧
      Reader.displays (verifyState s) = 0x3 ∧ Reader.redCal (verifyState s) = 0 ∧
      Reader.blueCal (verifyState s) = 0 ∧ Reader.redCalDate (verifyState s) = 0 ∧
      Reader.blueCalDate (verifyState s) = 0 := by
  rw [verifyState_of_invalid s h]
  exact writeDefaults_holdsDefaults s

/-- The erased store of all-0xFF bytes has an invalid signature and is
defaulted by the guard. -/
theorem verifyState_invalid_reads_defaults_witness :
    Reader.magic erased ≠ MAGIC_NUMBER ∧
      (Reader.magic (verifyState erased) = 0x55AA ∧
        Reader.intensity (verifyState erased) = 12 ∧
        Reader.displays (verifyState erased) = 0x3 ∧
        Reader.redCal (verifyState erased) = 0 ∧
        Reader.blueCal (verifyState erased) = 0 ∧
        Reader.redCalDate (verifyState erased) = 0 ∧
        Reader.blueCalDate (verifyState erased) = 0) :=
  ⟨by decide, verifyState_invalid_reads_defaults erased (by decide)⟩

/-- C2: on a store whose signature reads 0x55AA, whatever the other cells
hold, `verifyState` returns the very same store: no cell is written. -/
theorem verifyState_valid_unchanged (s : Store) (h : Reader.magic s = 0x55AA) :
    verifyState s = s ∧ ∀ x, verifyState s x = s x := by
  have hs : verifyState s = s := verifyState_of_valid s h
  exact ⟨hs, fun x => by rw [hs]⟩

/-- A configured store with non-default fields is left as it is. -/
theorem verifyState_valid_unchanged_witness :
    Reader.magic configured = 0x55AA ∧ verifyState configured = configured :=
  ⟨by decide, (verifyState_valid_unchanged configured (by decide)).1⟩

/-- C3: `verifyState` is idempotent: running it twice gives the same store as
running it once. -/
theorem verifyState_idempotent (s : Store) :
    verifyState (verifyState s) = verifyState s :=
  verifyState_of_valid (verifyState s) (magic_verifyState s)

/-- C4: `verifyState` ends in one of two states: either the store is unchanged
and its signature was already 0x55AA, or the signature was invalid and now every
field holds its default and the signature is 0x55AA; in both cases the signature
reads 0x55AA afterwards. -/
theorem verifyState_terminal (s : Store) :
    ((verifyState s = s ∧ Reader.magic s = 0x55AA) ∨
      (Reader.magic s ≠ 0x55AA ∧ holdsDefaults (verifyState s))) ∧
      Reader.magic (verifyState s) = 0x55AA := by
  refine ⟨?_, magic_verifyState s⟩
  by_cases h : Reader.magic s = MAGIC_NUMBER
  · exact Or.inl ⟨verifyState_of_valid s h, h⟩
  · refine Or.inr ⟨h, ?_⟩
    rw [verifyState_of_invalid s h]
    exact writeDefaults_holdsDefaults s

/-- C5: the signature write is the last of the seven writes of `writeDefaults`;
on a store with an invalid signature, stopping after any `k < 7` of the writes
leaves both signature cells as they were, so the signature is still invalid,
and `verifyState` on the interrupted store runs `writeDefaults` in full and
ends in the same store as the uninterrupted run. -/
theorem writeDefaults_interrupted (s : Store) (h : Reader.magic s ≠ MAGIC_NUMBER)
    (k : Nat) (hk : k < defaultWrites.length) :
    runWrites defaultWrites s = writeDefaults s ∧
      defaultWrites = defaultWrites.take 6 ++ [Writer.magic] ∧
      runWrites (defaultWrites.take k) s 0 = s 0 ∧
      runWrites (defaultWrites.take k) s 1 = s 1 ∧
      Reader.magic (runWrites (defaultWrites.take k) s) ≠ MAGIC_NUMBER ∧
      verifyState (runWrites (defaultWrites.take k) s)
        = writeDefaults (runWrites (defaultWrites.take k) s) ∧
      verifyState (runWrites (defaultWrites.take k) s) = writeDefaults s ∧
      verifyState (runWrites (defaultWrites.take k) s) = verifyState s := by
  have hk7 : k < 7 := hk
  have h0 := runWrites_take_frame s k hk7 0 (Or.inl (by omega))
  have h1 := runWrites_take_frame s k hk7 1 (Or.inl (by omega))
  have hm : Reader.magic (runWrites (defaultWrites.take k) s) = Reader.magic s := by
    simp only [Reader.magic, eeprom_read_word, Location.addr]
    rw [h0, h1]
  have hbad : Reader.magic (runWrites (defaultWrites.take k) s) ≠ MAGIC_NUMBER := by
    rw [hm]; exact h
  have hv := verifyState_of_invalid _ hbad
  have hc : writeDefaults (runWrites (defaultWrites.take k) s) = writeDefaults s :=
    writeDefaults_congr s _ (fun x hx => runWrites_take_frame s k hk7 x (Or.inr hx))
  refine ⟨rfl, rfl, h0, h1, hbad, hv, ?_, ?_⟩
  · rw [hv, hc]
  · rw [hv, hc, verifyState_of_invalid s h]

/-- On the erased store, stopping after the six non-signature writes leaves the
signature invalid and the next guard run ends as an uninterrupted run does. -/
theorem writeDefaults_interrupted_witness :
    Reader.magic erased ≠ MAGIC_NUMBER ∧ 6 < defaultWrites.length ∧
      Reader.magic (runWrites (defaultWrites.take 6) erased) ≠ MAGIC_NUMBER ∧
      verifyState (runWrites (defaultWrites.take 6) erased) = verifyState erased :=
  have w := writeDefaults_interrupted erased (by decide) 6 (by decide)
  ⟨by decide, by decide, w.2.2.2.2.1, w.2.2.2.2.2.2.2⟩

/-! ## Round trips through the typed accessors -/

/-- C6: at the value 1 the red calibration date does not come back: on every
store `Writer.redCalDate 1` followed by `Reader.redCalDate` returns 0x3F800000,
the binary32 pattern of 1.0, because the setter goes through `writeDouble`. -/
theorem redCalDate_one_reads_float_pattern (s : Store) :
    Reader.redCalDate (Writer.redCalDate s 1) = 0x3F800000 ∧
      Reader.redCalDate (Writer.redCalDate s 1) ≠ 1 := by
  have hr : Reader.redCalDate (Writer.redCalDate s 1) = 0x3F800000 := by
    simp only [Reader.redCalDate, Writer.redCalDate, Reader.readUint32, Writer.writeDouble,
      eeprom_write_float, read_write_dword]
    decide
  exact ⟨hr, by rw [hr]; decide⟩

/-- C7: for every 32-bit unsigned `u` and every store, `Writer.blueCalDate u`
followed by `Reader.blueCalDate` returns `u`. -/
theorem blueCalDate_roundtrip (s : Store) (u : Nat) (hu : u < 2 ^ 32) :
    Reader.blueCalDate (Writer.blueCalDate s u) = u := by
  simp only [Reader.blueCalDate, Writer.blueCalDate, Reader.readUint32, Writer.writeUint32,
    read_write_dword]
  omega

/-- The date 0xDEADBEEF written to the erased store is read back. -/
theorem blueCalDate_roundtrip_witness :
    0xDEADBEEF < 2 ^ 32 ∧
      Reader.blueCalDate (Writer.blueCalDate erased 0xDEADBEEF) = 0xDEADBEEF :=
  ⟨by decide, blueCalDate_roundtrip erased 0xDEADBEEF (by decide)⟩

/-- C8: for every byte `b` in 0..255 and every store, `Writer.intensity b`
followed by `Reader.intensity` returns `b`, and `Writer.displays b` followed by
`Reader.displays` returns `b`; nothing is validated or clamped. -/
theorem byte_fields_roundtrip (s : Store) (b : Nat) (hb : b < 256) :
    Reader.intensity (Writer.intensity s b) = b ∧
      Reader.displays (Writer.displays s b) = b := by
  simp only [Reader.intensity, Writer.intensity, Reader.displays, Writer.displays,
    read_write_byte]
  omega

/-- The byte 200, far above the nominal intensity range 0..15, is read back. -/
theorem byte_fields_roundtrip_witness :
    200 < 256 ∧ Reader.intensity (Writer.intensity erased 200) = 200 ∧
      Reader.displays (Writer.displays erased 200) = 200 :=
  ⟨by decide, byte_fields_roundtrip erased 200 (by decide)⟩

/-- C9: for every binary32 pattern `d` (so for every finite value) and every
store, `Writer.redCal d` followed by `Reader.redCal` returns the pattern `d`
itself, and so does `Writer.blueCal d` followed by `Reader.blueCal`. -/
theorem calibration_roundtrip (s : Store) (d : Nat) (hd : d < 2 ^ 32) :
    Reader.redCal (Writer.redCal s d) = d ∧
      Reader.blueCal (Writer.blueCal s d) = d := by
  simp only [Reader.redCal, Writer.redCal, Reader.blueCal, Writer.blueCal, Reader.readDouble,
    Writer.writeDouble, eeprom_read_float, eeprom_write_float, read_write_dword]
  omega

/-- The pattern 0xC2F6E979 (about -123.456, all mantissa bits significant) is
read back bit for bit. -/
theorem calibration_roundtrip_witness :
    0xC2F6E979 < 2 ^ 32 ∧
      Reader.redCal (Writer.redCal configured 0xC2F6E979) = 0xC2F6E979 ∧
      Reader.blueCal (Writer.blueCal configured 0xC2F6E979) = 0xC2F6E979 :=
  ⟨by decide, calibration_roundtrip configured 0xC2F6E979 (by decide)⟩

/-- C10: `Writer.magic` has no value parameter and writes the one constant: on
every store `Reader.magic` returns 0x55AA after it, and a following
`verifyState` leaves the store as it is. -/
theorem magic_write_read (s : Store) :
    Reader.magic (Writer.magic s) = 0x55AA ∧
      verifyState (Writer.magic s) = Writer.magic s := by
  have hm : Reader.magic (Writer.magic s) = MAGIC_NUMBER := by
    simp only [Reader.magic, Writer.magic, read_write_word]
    decide
  exact ⟨hm, verifyState_of_valid _ hm⟩

/-! ## The layout and the frame of each setter -/

/-- Distinct fields occupy disjoint byte ranges. -/
theorem ranges_disjoint (l m : Location) (h : l ≠ m) :
    l.addr + l.width ≤ m.addr ∨ m.addr + m.width ≤ l.addr := by
  cases l <;> cases m <;> first | exact absurd rfl h | decide

/-- A setter leaves every cell outside its field as it was. -/
theorem writeField_outside (l : Location) (s : Store) (v x : Nat)
    (hx : x < l.addr ∨ l.addr + l.width ≤ x) : writeField l s v x = s x := by
  cases l <;>
    simp only [Location.addr, Location.width] at hx <;>
    simp only [writeField, Writer.magic, Writer.redCalDate, Writer.blueCalDate,
      Writer.redCal, Writer.blueCal, Writer.displays, Writer.intensity, Writer.writeDouble,
      Writer.writeUint32, eeprom_write_float, eeprom_write_dword, eeprom_write_word,
      eeprom_write_byte, setByte, Location.addr] <;>
    repeat rw [if_neg (by omega)]

/-- A reader looks only at the cells of its own field. -/
theorem readField_congr (l : Location) (s t : Store)
    (h : ∀ x, l.addr ≤ x → x < l.addr + l.width → t x = s x) :
    readField l t = readField l s := by
  cases l <;>
    simp only [Location.addr, Location.width] at h <;>
    simp only [readField, Reader.magic, Reader.intensity, Reader.displays, Reader.redCal,
      Reader.blueCal, Reader.redCalDate, Reader.blueCalDate, Reader.readDouble,
      Reader.readUint32, eeprom_read_word, eeprom_read_byte, eeprom_read_float,
      eeprom_read_dword, Location.addr] <;>
    repeat rw [h _ (by omega) (by omega)]

/-- C11: the layout is signature at 0 width 2, intensity at 2 width 1, displays
at 3 width 1, red calibration at 4 width 4, its date at 8 width 4, blue
calibration at 12 width 4, its date at 16 width 4, and the byte ranges
[offset, offset+width) of two distinct fields never intersect. -/
theorem layout_disjoint :
    Location.MAGIC.addr = 0 ∧ Location.MAGIC.width = 2 ∧
      Location.INTENSITY.addr = 2 ∧ Location.INTENSITY.width = 1 ∧
      Location.DISPLAYS.addr = 3 ∧ Location.DISPLAYS.width = 1 ∧
      Location.REDCAL.addr = 4 ∧ Location.REDCAL.width = 4 ∧
      Location.REDCALDATE.addr = 8 ∧ Location.REDCALDATE.width = 4 ∧
      Location.BLUECAL.addr = 12 ∧ Location.BLUECAL.width = 4 ∧
      Location.BLUECALDATE.addr = 16 ∧ Location.BLUECALDATE.width = 4 ∧
      ∀ l m : Location, l ≠ m → ∀ x,
        ¬ (l.addr ≤ x ∧ x < l.addr + l.width ∧ m.addr ≤ x ∧ x < m.addr + m.width) := by
  refine ⟨rfl, rfl, rfl, rfl, rfl, rfl, rfl, rfl, rfl, rfl, rfl, rfl, rfl, rfl, ?_⟩
  intro l m h x hx
  have := ranges_disjoint l m h
  omega

/-- The red calibration (cells 4..7) and its date (cells 8..11) share no cell,
cell 7 for instance. -/
theorem layout_disjoint_witness :
    Location.REDCAL ≠ Location.REDCALDATE ∧
      ¬ (Location.REDCAL.addr ≤ 7 ∧ 7 < Location.REDCAL.addr + Location.REDCAL.width ∧
        Location.REDCALDATE.addr ≤ 7 ∧
        7 < Location.REDCALDATE.addr + Location.REDCALDATE.width) :=
  ⟨by decide, layout_disjoint.2.2.2.2.2.2.2.2.2.2.2.2.2.2 _ _ (by decide) 7⟩

/-- C12: each named setter changes only cells of its own field: whatever the
store and the value, every cell outside [offset, offset+width) is as before, and
the reader of every other field returns what it returned before the write. -/
theorem setter_frame (l : Location) (s : Store) (v : Nat) :
    (∀ x, x < l.addr ∨ l.addr + l.width ≤ x → writeField l s v x = s x) ∧
      ∀ m : Location, m ≠ l → readField m (writeField l s v) = readField m s := by
  refine ⟨fun x hx => writeField_outside l s v x hx, fun m hm => ?_⟩
  apply readField_congr
  intro x h1 h2
  apply writeField_outside
  have := ranges_disjoint m l hm
  omega

/-- Writing the red calibration date 0xFFFFFFFF into the configured store keeps
cell 12 and the value of the blue calibration. -/
theorem setter_frame_witness :
    (Location.REDCALDATE.addr + Location.REDCALDATE.width ≤ 12 ∧
      Location.BLUECAL ≠ Location.REDCALDATE) ∧
      writeField Location.REDCALDATE configured 0xFFFFFFFF 12 = configured 12 ∧
      readField Location.BLUECAL (writeField Location.REDCALDATE configured 0xFFFFFFFF)
        = readField Location.BLUECAL configured :=
  have w := setter_frame Location.REDCALDATE configured 0xFFFFFFFF
  ⟨⟨by decide, by decide⟩, w.1 12 (Or.inr (by decide)), w.2 Location.BLUECAL (by decide)⟩

/-- C14: `verifyState` and `writeDefaults` leave every cell at offset 20 or
above as it was, and after `writeDefaults` the cells 0..19 hold the same fixed
sequence whatever the store held before. -/
theorem defaults_stay_in_range (s : Store) :
    (∀ x, 20 ≤ x → writeDefaults s x = s x ∧ verifyState s x = s x) ∧
      (List.range 20).map (writeDefaults s) = defaultImage ∧
      ∀ t : Store, ∀ x, x < 20 → writeDefaults t x = writeDefaults s x := by
  have hw : ∀ x, 20 ≤ x → writeDefaults s x = s x := by
    intro x hx
    rw [writeDefaults_apply]
    repeat rw [if_neg (by omega)]
  refine ⟨fun x hx => ⟨hw x hx, ?_⟩, ?_, ?_⟩
  · by_cases h : Reader.magic s = MAGIC_NUMBER
    · rw [verifyState_of_valid s h]
    · rw [verifyState_of_invalid s h]; exact hw x hx
  · simp [List.range, List.range.loop, writeDefaults_apply, defaultImage]
  · intro t x hx
    rw [writeDefaults_apply, writeDefaults_apply]
    interval_cases x <;> rfl

/-- On the erased store cell 20 keeps 0xFF under both routines and cell 19 is
defaulted to the same byte as on the configured store. -/
theorem defaults_stay_in_range_witness :
    (20 ≤ 20 ∧ 19 < 20) ∧
      (writeDefaults erased 20 = erased 20 ∧ verifyState erased 20 = erased 20) ∧
      writeDefaults configured 19 = writeDefaults erased 19 :=
  have w := defaults_stay_in_range erased
  ⟨⟨by decide, by decide⟩, w.1 20 (by decide), w.2.2 configured 19 (by decide)⟩

/-! ## The conversion to floating point -/

/-- With enough fuel `highBit` is the position of the leading one. -/
theorem highBit_spec (fuel n : Nat) (h0 : 0 < n) (hn : n < 2 ^ fuel) :
    2 ^ highBit fuel n ≤ n ∧ n < 2 ^ (highBit fuel n + 1) ∧ highBit fuel n < fuel := by
  induction fuel generalizing n with
  | zero => simp at hn; omega
  | succ fuel ih =>
    unfold highBit
    by_cases h2 : n < 2
    · simp [h2]; omega
    · simp only [h2, if_false]
      have hn2 : n / 2 < 2 ^ fuel := by
        rw [pow_succ] at hn; omega
      obtain ⟨a, b, c⟩ := ih (n / 2) (by omega) hn2
      rw [pow_succ] at b
      refine ⟨?_, ?_, by omega⟩
      · rw [pow_succ]; omega
      · rw [pow_succ]; omega

/-- Decoding a normal pattern assembled from exponent field `E` and 24-bit
significand `m`. -/
theorem float32Scaled_encode (E m : Nat) (hm1 : 2 ^ 23 ≤ m) (hm2 : m < 2 ^ 24)
    (hE1 : 1 ≤ E) (hE2 : E < 255) :
    float32Scaled (E * 2 ^ 23 + (m - 2 ^ 23)) = m * 2 ^ (E - 1) := by
  have hE : float32Exponent (E * 2 ^ 23 + (m - 2 ^ 23)) = E := by
    unfold float32Exponent; omega
  have hM : float32Mantissa (E * 2 ^ 23 + (m - 2 ^ 23)) = m - 2 ^ 23 := by
    unfold float32Mantissa; omega
  unfold float32Scaled
  have hs : 2 ^ 23 + (m - 2 ^ 23) = m := by omega
  rw [hE, hM, if_neg (by omega), hs]

/-- For `0 < u < 2^32` the pattern `floatOfNat u` is a normal number with
exponent field `E` and 24-bit significand `m`; it stands for an integer `V`
that differs from `u` by at most `u / 2^24`. -/
theorem floatOfNat_decode (u : Nat) (h0 : 0 < u) (hu : u < 2 ^ 32) :
    ∃ E m V, floatOfNat u = E * 2 ^ 23 + (m - 2 ^ 23) ∧ 127 ≤ E ∧ E ≤ 159 ∧
      2 ^ 23 ≤ m ∧ m < 2 ^ 24 ∧ m * 2 ^ (E - 1) = V * 2 ^ 149 ∧
      2 ^ 24 * (V - u) ≤ u ∧ 2 ^ 24 * (u - V) ≤ u := by
  obtain ⟨h1, h2, h3⟩ := highBit_spec 32 u h0 hu
  unfold floatOfNat
  simp only [Nat.ne_of_gt h0, if_false]
  generalize highBit 32 u = e at *
  by_cases he : e ≤ 23
  · simp only [he, if_true]
    have e1 : e + (23 - e) = 23 := by omega
    have e2 : (23 - e) + (e + 126) = 149 := by omega
    have e6 : e + 127 - 1 = e + 126 := by omega
    have hk : 2 ^ e * 2 ^ (23 - e) = 2 ^ 23 := by rw [← pow_add, e1]
    have hk2 : 2 ^ (23 - e) * 2 ^ (e + 126) = 2 ^ 149 := by rw [← pow_add, e2]
    have hlo : 2 ^ e * 2 ^ (23 - e) ≤ u * 2 ^ (23 - e) := Nat.mul_le_mul_right _ h1
    have hhi : u * 2 ^ (23 - e) < 2 ^ (e + 1) * 2 ^ (23 - e) :=
      Nat.mul_lt_mul_of_pos_right h2 (pow_pos (by decide) _)
    rw [pow_succ, Nat.mul_right_comm, hk] at hhi
    rw [hk] at hlo
    refine ⟨e + 127, u * 2 ^ (23 - e), u, rfl, by omega, by omega, hlo, by omega, ?_,
      by omega, by omega⟩
    rw [e6, Nat.mul_assoc, hk2]
  · simp only [he, if_false]
    have e3 : e - 23 = (e - 24) + 1 := by omega
    have e4 : 23 + (e - 23) = e := by omega
    have e5 : (e - 23) + 149 = e + 126 := by omega
    have e6 : e + 127 - 1 = e + 126 := by omega
    have e7 : e + 128 - 1 = (e + 126) + 1 := by omega
    have hd : 2 ^ (e - 23) = 2 * 2 ^ (e - 24) := by rw [e3, pow_succ, Nat.mul_comm]
    have hpe : 2 ^ 23 * 2 ^ (e - 23) = 2 ^ e := by rw [← pow_add, e4]
    have hsc : 2 ^ (e - 23) * 2 ^ 149 = 2 ^ (e + 126) := by rw [← pow_add, e5]
    have hpe1 : 2 ^ (e + 1) = 2 * 2 ^ e := by rw [pow_succ, Nat.mul_comm]
    have hdpos : 0 < 2 ^ (e - 23) := pow_pos (by decide) _
    generalize 2 ^ (e - 24) = half at *
    generalize 2 ^ (e - 23) = d at *
    have hqr := Nat.div_add_mod u d
    have hr := Nat.mod_lt u hdpos
    have hq1 : 2 ^ 23 ≤ u / d := (Nat.le_div_iff_mul_le hdpos).2 (by omega)
    have hq2 : u / d < 2 ^ 24 := (Nat.div_lt_iff_lt_mul hdpos).2 (by omega)
    generalize u / d = q at *
    generalize u % d = r at *
    by_cases hc : half < r ∨ r = half ∧ q % 2 = 1
    · rw [if_pos hc]
      by_cases hcarry : q + 1 < 2 ^ 24
      · refine ⟨e + 127, q + 1, d * q + d, rfl, by omega, by omega, by omega, hcarry, ?_,
          by omega, by omega⟩
        rw [e6, ← hsc]
        ring
      · have hq : q + 1 = 2 ^ 24 := by omega
        refine ⟨e + 128, 2 ^ 23, d * q + d, by omega, by omega, by omega, by omega, by omega,
          ?_, by omega, by omega⟩
        have hV : d * q + d = 2 ^ 24 * d := by rw [← hq]; ring
        rw [e7, pow_succ 2 (e + 126), ← hsc, hV]
        ring
    · rw [if_neg hc]
      refine ⟨e + 127, q, d * q, rfl, by omega, by omega, hq1, hq2, ?_, by omega, by omega⟩
      rw [e6, ← hsc]
      ring

/-- The conversion of a 32-bit unsigned value is a non-negative finite pattern
whose value is `u` up to a relative error of `2^-24`. -/
theorem floatOfNat_value (u : Nat) (hu : u < 2 ^ 32) :
    floatOfNat u < 2 ^ 31 ∧ float32Finite (floatOfNat u) ∧
      ∃ V, float32Scaled (floatOfNat u) = V * 2 ^ 149 ∧
        2 ^ 24 * (V - u) ≤ u ∧ 2 ^ 24 * (u - V) ≤ u := by
  by_cases h0 : u = 0
  · subst h0
    rw [floatOfNat_zero]
    exact ⟨by decide, by decide, 0, by decide, by decide, by decide⟩
  · obtain ⟨E, m, V, hb, hE1, hE2, hm1, hm2, hv, hV1, hV2⟩ :=
      floatOfNat_decode u (Nat.pos_of_ne_zero h0) hu
    have hs := float32Scaled_encode E m hm1 hm2 (by omega) (by omega)
    rw [← hb] at hs
    refine ⟨by omega, ?_, V, by rw [hs, hv], hV1, hV2⟩
    unfold float32Finite float32Exponent
    omega

/-! ## The red calibration date setter -/

/-- C13: `Writer.redCalDate u` goes through the floating point write: for every
32-bit unsigned `u` the four cells at offset 8 hold the bytes of the binary32
pattern of `u` converted to floating point, and `Reader.redCalDate`, an integer
read, returns that pattern. The pattern is finite and non-negative and its value
is `u` rounded to 24 significant bits (so exactly `u` below `2^24`); for `u = 1`
the reader returns 0x3F800000 and for `u = 0` it returns 0. -/
theorem redCalDate_stores_float_pattern (s : Store) (u : Nat) (hu : u < 2 ^ 32) :
    (∀ k, k < 4 → Writer.redCalDate s u (8 + k) = byteOf (floatOfNat u) k) ∧
      Reader.redCalDate (Writer.redCalDate s u) = floatOfNat u ∧
      float32Sign (floatOfNat u) = 0 ∧ float32Finite (floatOfNat u) ∧
      (∃ V, float32Scaled (floatOfNat u) = V * 2 ^ 149 ∧
        2 ^ 24 * (V - u) ≤ u ∧ 2 ^ 24 * (u - V) ≤ u) ∧
      (u < 2 ^ 24 → float32Scaled (floatOfNat u) = u * 2 ^ 149) ∧
      Reader.redCalDate (Writer.redCalDate s 1) = 0x3F800000 ∧
      Reader.redCalDate (Writer.redCalDate s 0) = 0 := by
  obtain ⟨hlt, hfin, V, hv, hV1, hV2⟩ := floatOfNat_value u hu
  have hread : ∀ w, Reader.redCalDate (Writer.redCalDate s w)
      = floatOfNat (w % 2 ^ 32) % 4294967296 := by
    intro w
    simp only [Reader.redCalDate, Writer.redCalDate, Reader.readUint32, Writer.writeDouble,
      eeprom_write_float, read_write_dword]
  refine ⟨?_, ?_, ?_, hfin, ⟨V, hv, hV1, hV2⟩, ?_, ?_, ?_⟩
  · intro k hk
    simp only [Writer.redCalDate, Writer.writeDouble, eeprom_write_float, eeprom_write_dword,
      Location.addr, Nat.mod_eq_of_lt hu]
    interval_cases k <;> simp [setByte]
  · rw [hread, Nat.mod_eq_of_lt hu]
    omega
  · unfold float32Sign
    omega
  · intro h24
    have hVu : V = u := by omega
    rw [hv, hVu]
  · rw [hread]
    decide
  · rw [hread]
    decide

/-- The value 16777217 needs 25 bits: the cells hold the pattern 0x4B800000 of
16777216.0 and the reader returns it. -/
theorem redCalDate_stores_float_pattern_witness :
    16777217 < 2 ^ 32 ∧
      Reader.redCalDate (Writer.redCalDate erased 16777217) = 0x4B800000 :=
  ⟨by decide,
    (redCalDate_stores_float_pattern erased 16777217 (by decide)).2.1.trans (by decide)⟩

/-! ## The report of the readings -/

/-- C15: `Readings.run` pairs the colours with the sensors crosswise and only
reads the store: the value formatted under "red" is `rtd2.temperature` plus
`Reader.redCal` with code `rtd2.faultCode`, the value formatted under "blue" is
`rtd1.temperature` plus `Reader.blueCal` with code `rtd1.faultCode`, and the
store is returned unchanged. -/
theorem run_pairs_crosswise (fadd : Nat → Nat → Nat) (r : RtdReadings) (s : Store) :
    (Readings.run fadd r s).2 = s ∧
      (Readings.run fadd r s).1 =
        "\x7b\"red\":\x7b\"value\":\"".toList
          ++ printf_f (fadd r.rtd2.temperature (Reader.redCal s))
          ++ "\",\"code\":\"".toList ++ decimal (r.rtd2.faultCode % 256)
          ++ "\"\x7d,\"blue\":\x7b\"value\":\"".toList
          ++ printf_f (fadd r.rtd1.temperature (Reader.blueCal s))
          ++ "\",\"code\":\"".toList ++ decimal (r.rtd1.faultCode % 256)
          ++ "\"\x7d\x7d".toList := by
  refine ⟨rfl, ?_⟩
  have h1 : r.rtd1.faultCode % 256 % 65536 = r.rtd1.faultCode % 256 := by omega
  have h2 : r.rtd2.faultCode % 256 % 65536 = r.rtd2.faultCode % 256 := by omega
  simp [Readings.run, Readings.format, sprintf, h1, h2]

/-- C16: the report does not always fit: with both calibrated temperatures the
finite pattern 0xFF7FFFFF (about -3.4e38) and both fault codes 255 the format
produces 160 characters, more than 100 and, with the terminating NUL, more than
the 150 bytes of the buffer. -/
theorem report_exceeds_buffer :
    float32Finite 0xFF7FFFFF ∧
      (sprintf Readings.format
        [Arg.double 0xFF7FFFFF, Arg.uint 255, Arg.double 0xFF7FFFFF, Arg.uint 255]).length
        = 160 ∧
      100 < 160 ∧ Readings.bufferSize < 160 + 1 := by
  refine ⟨by decide, by rfl, by decide, by decide⟩

end brewery
